import Mathlib

/-!
Verification of the i2pkg exporter (src/main.go), a Go program that lists
configuration packages from an HTTP API, walks each package's active stage's
file listing, fetches file contents, and writes one JSON bundle per package.

Go strings are byte sequences; we model them as `List Nat` (each entry a byte
value) and build literals from ASCII Lean strings via a UTF-8 encoder.
-/

/-- Go strings are byte sequences. -/
abbrev GoStr := List Nat

/-- UTF-8 encoding of a single code point, as byte values. -/
def utf8Enc (c : Nat) : List Nat :=
  if c < 0x80 then [c]
  else if c < 0x800 then [0xC0 + c / 64, 0x80 + c % 64]
  else if c < 0x10000 then [0xE0 + c / 4096, 0x80 + c / 64 % 64, 0x80 + c % 64]
  else [0xF0 + c / 262144, 0x80 + c / 4096 % 64, 0x80 + c / 64 % 64, 0x80 + c % 64]

/-- Byte list of a Lean string literal, used to transcribe Go string literals. -/
def gs (s : String) : GoStr := s.data.flatMap (fun c => utf8Enc c.toNat)

/-!
## url.PathEscape

Go's `url.PathEscape(s)` is `escape(s, encodePathSegment)`: a byte is kept
as-is when it is alphanumeric, one of the unreserved marks `- _ . ~`, or one
of the reserved characters `$ & + : = @`; every other byte (including
`/ ; , ?` and space) is written as `%XX` with uppercase hex digits.
-/

/-- Go `net/url.shouldEscape(c, encodePathSegment)`. -/
def shouldEscape (c : Nat) : Bool :=
  if (97 ≤ c ∧ c ≤ 122) ∨ (65 ≤ c ∧ c ≤ 90) ∨ (48 ≤ c ∧ c ≤ 57) then false
  else if c = 45 ∨ c = 95 ∨ c = 46 ∨ c = 126 then false
  else if c = 36 ∨ c = 38 ∨ c = 43 ∨ c = 58 ∨ c = 61 ∨ c = 64 then false
  else true

/-- Uppercase hexadecimal digit, as in Go's `upperhex` table. -/
def hexDigit (n : Nat) : Nat := if n < 10 then 48 + n else 55 + n

/-- `%XX` escape of one byte. -/
def escByte (c : Nat) : List Nat := [37, hexDigit (c / 16), hexDigit (c % 16)]

/-- Go `url.PathEscape`. -/
def pathEscape : GoStr → GoStr
  | [] => []
  | c :: rest => (if shouldEscape c then escByte c else [c]) ++ pathEscape rest

/-!
## Data model

Decoded API entities (struct tags `name`, `active-stage`, `type` in main.go),
responses, and the world the program runs against: an oracle mapping each
request path to an HTTP response, plus JSON decoders for the two decoded
response shapes.  `encoding/json` itself is not the subject of any claim, so
decoding is abstracted as oracle functions from body bytes to decoded values
(`none` = decode error).
-/

structure PkgEntry where
  name : GoStr
  activeStage : GoStr
  deriving DecidableEq

structure FileEntry where
  name : GoStr
  type : GoStr
  deriving DecidableEq

structure HttpResp where
  status : Nat
  body : GoStr
  deriving DecidableEq

structure World where
  resp : GoStr → HttpResp
  decodePackages : GoStr → Option (List PkgEntry)
  decodeFiles : GoStr → Option (List FileEntry)
  caOk : Bool

/-- Request paths built by main.go. -/
def packagesPath : GoStr := gs "/v1/config/packages"

def stagesBase : GoStr := gs "/v1/config/stages/"

def filesBase : GoStr := gs "/v1/config/files/"

/-- `"/v1/config/stages/" + url.PathEscape(pkg.Name) + "/" + url.PathEscape(pkg.ActiveStage)` -/
def stagePath (pkg stage : GoStr) : GoStr :=
  stagesBase ++ pathEscape pkg ++ [47] ++ pathEscape stage

/-- `"/v1/config/files/" + url.PathEscape(pkg.Name) + "/" + url.PathEscape(pkg.ActiveStage) + "/" + file.Name` — the file name is appended raw. -/
def filePath (pkg stage name : GoStr) : GoStr :=
  filesBase ++ pathEscape pkg ++ [47] ++ pathEscape stage ++ [47] ++ name

/-!
## Go map semantics

`uploadFiles` is a Go `map[string]string`; assignment overwrites an existing
key in place.  We model it as an association list with overwrite-or-append
assignment, and lookup returning the current binding.
-/

abbrev FileMap := List (GoStr × GoStr)

/-- Go map assignment `m[k] = v`. -/
def mapSet : FileMap → GoStr → GoStr → FileMap
  | [], k, v => [(k, v)]
  | (k', v') :: rest, k, v =>
    if k' = k then (k, v) :: rest else (k', v') :: mapSet rest k v

/-- Go map lookup `m[k]`. -/
def mapGet : FileMap → GoStr → Option GoStr
  | [], _ => none
  | (k', v') :: rest, k => if k' = k then some v' else mapGet rest k

/-!
## The request helper and the export driver

`sendReq` (main.go:214) logs the request (via `httpLogger`, which prints
method and URL before sending), executes it, echoes the body to stderr and
returns `badHttpStatus{code}` on a non-200 status, and otherwise yields the
raw body (for a `*[]byte` target) or a decoded value.  The driver `main`
(main.go:128-211) is a linear pipeline; any error is printed and the process
exits with code 1, leaving previously written bundle files on disk.

Each run result carries the ordered request log (the paths printed by
`httpLogger`; the method is always GET), the list of bundle files written
(name and content mapping), and the error that aborted the run, if any.
-/

/-- Errors a fetch step can produce: `badHttpStatus{code}` (with the response
body that was copied to stderr) or a JSON decode error. -/
inductive StepErr
  | badStatus (code : Nat) (echoed : GoStr)
  | decodeErr
  deriving DecidableEq

/-- The status-check half of `sendReq` (main.go:231-241): a non-200 response
has its body copied to stderr and becomes a `badHttpStatus` error carrying
the status code; a 200 response yields the raw body bytes. -/
def fetchRaw (w : World) (p : GoStr) : Except StepErr GoStr :=
  let r := w.resp p
  if r.status = 200 then .ok r.body else .error (.badStatus r.status r.body)

/-- Whether a file entry is fetched and bundled (main.go:156):
`file.Type == "file" && strings.Contains(file.Name, "/")`. -/
def fileQualifies (e : FileEntry) : Bool :=
  e.type = gs "file" && e.name.contains 47

/-- The inner loop over a stage's file listing (main.go:155-181): each
qualifying entry is fetched (the request is logged even when it fails) and
stored into `uploadFiles`; a failed fetch aborts.  Returns the request log of
the loop and either the final mapping or the aborting error. -/
def filesLoop (w : World) (pkg stage : GoStr) :
    List FileEntry → FileMap → List GoStr × Except StepErr FileMap
  | [], m => ([], .ok m)
  | e :: rest, m =>
    if fileQualifies e then
      let p := filePath pkg stage e.name
      match fetchRaw w p with
      | .ok body =>
        let (lg, res) := filesLoop w pkg stage rest (mapSet m e.name body)
        (p :: lg, res)
      | .error err => ([p], .error err)
    else
      filesLoop w pkg stage rest m

/-- Whether a package is processed at all (main.go:134):
`pkg.Name != "" && pkg.ActiveStage != ""`. -/
def pkgQualifies (p : PkgEntry) : Bool :=
  !p.name.isEmpty && !p.activeStage.isEmpty

/-- Outcome of the body of the package loop for one package. -/
inductive PkgResult
  | skipped
  | done (lg : List GoStr) (out : Option (GoStr × FileMap))
  | aborted (lg : List GoStr) (err : StepErr)
  deriving DecidableEq

/-- One iteration of the package loop (main.go:133-211): a qualifying package
has its active stage's file listing fetched and decoded, its qualifying files
fetched, and — only when the accumulated mapping is non-empty — a bundle file
named `url.PathEscape(pkg.Name) + ".json"` written. -/
def procPkg (w : World) (p : PkgEntry) : PkgResult :=
  if pkgQualifies p then
    let sp := stagePath p.name p.activeStage
    match fetchRaw w sp with
    | .error e => .aborted [sp] e
    | .ok body =>
      match w.decodeFiles body with
      | none => .aborted [sp] .decodeErr
      | some entries =>
        match filesLoop w p.name p.activeStage entries [] with
        | (flg, .error e) => .aborted (sp :: flg) e
        | (flg, .ok m) =>
          .done (sp :: flg)
            (if m.length > 0 then some (pathEscape p.name ++ gs ".json", m) else none)
  else .skipped

/-- Result of a run: request log, bundle files written, aborting error. -/
structure RunOut where
  log : List GoStr
  written : List (GoStr × FileMap)
  err : Option StepErr
  deriving DecidableEq

/-- Exit code of the process for a given run outcome (errors exit 1). -/
def RunOut.exitCode (r : RunOut) : Nat := if r.err.isSome then 1 else 0

/-- The package loop (main.go:133): packages are processed in order; an abort
stops the loop, keeping the bundle files already written. -/
def pkgLoop (w : World) : List PkgEntry → RunOut
  | [] => ⟨[], [], none⟩
  | p :: rest =>
    match procPkg w p with
    | .skipped => pkgLoop w rest
    | .aborted lg e => ⟨lg, [], some e⟩
    | .done lg out =>
      let r := pkgLoop w rest
      ⟨lg ++ r.log, out.toList ++ r.written, r.err⟩

/-- The whole export (main.go:128-211): fetch and decode the package list,
then run the package loop. -/
def runExport (w : World) : RunOut :=
  match fetchRaw w packagesPath with
  | .error e => ⟨[packagesPath], [], some e⟩
  | .ok body =>
    match w.decodePackages body with
    | none => ⟨[packagesPath], [], some .decodeErr⟩
    | some pkgs =>
      let r := pkgLoop w pkgs
      ⟨packagesPath :: r.log, r.written, r.err⟩

/-!
## Flag and credential validation (main.go:54-92)

The five flags and the `I2_PASS` environment variable are checked in order;
any empty one prints a message to stderr and exits with code 2, before any
network request.  A CA-load failure exits with code 1, still before any
request.
-/

structure Flags where
  host : GoStr
  port : GoStr
  ca : GoStr
  cn : GoStr
  user : GoStr
  deriving DecidableEq

/-- Overall outcome of one invocation: exit code, the fatal configuration
message printed to stderr (if any), the request log and the files written. -/
structure MainOut where
  exit : Nat
  msg : Option GoStr
  log : List GoStr
  written : List (GoStr × FileMap)
  deriving DecidableEq

/-- `main` (main.go:54-212): flag/credential validation, CA load, then the
export pipeline. -/
def mainModel (f : Flags) (pass : GoStr) (w : World) : MainOut :=
  if f.host.isEmpty then ⟨2, some (gs "-host missing"), [], []⟩
  else if f.port.isEmpty then ⟨2, some (gs "-port missing"), [], []⟩
  else if f.ca.isEmpty then ⟨2, some (gs "-ca missing"), [], []⟩
  else if f.cn.isEmpty then ⟨2, some (gs "-cn missing"), [], []⟩
  else if f.user.isEmpty then ⟨2, some (gs "-user missing"), [], []⟩
  else if pass.isEmpty then ⟨2, some (gs "$I2_PASS missing"), [], []⟩
  else if !w.caOk then ⟨1, none, [], []⟩
  else
    let r := runExport w
    ⟨r.exitCode, none, r.log, r.written⟩

/-!
## Pointer-level model of the request building in `sendReq` (main.go:214-229)

`sendReq` receives `base *http.Request`.  The code does
`req := *base` (a stack copy of the request struct; the `URL` and `Header`
pointers inside it still alias `base`'s), then `url := *req.URL` (a stack
copy of the URL struct), `req.Method = method`, `req.URL = &url`,
`url.Path = uri`, and optionally `req.Body = closableReader{buf}` — all
writes land on the fresh copies.  Claim C9 is about this aliasing discipline,
so here requests, URLs and headers live in an explicit heap (cells addressed
by index) and `buildReq` performs exactly those reads, copies and writes.
-/

structure URLCell where
  scheme : GoStr
  host : GoStr
  path : GoStr
  deriving DecidableEq

structure ReqCell where
  method : GoStr
  urlPtr : Nat
  headerPtr : Nat
  hasBody : Bool
  deriving DecidableEq

structure Heap where
  urls : List URLCell
  reqs : List ReqCell
  headers : List (List (GoStr × GoStr))
  deriving DecidableEq

/-- The request-building half of `sendReq`: reads `*base` and `*base.URL`,
writes method, uri and body onto fresh copies, allocates them, and returns
the new heap together with the address of the request that is executed. -/
def buildReq (h : Heap) (basePtr : Nat) (method uri : GoStr) (hasIn : Bool) :
    Option (Heap × Nat) :=
  match h.reqs[basePtr]? with
  | none => none
  | some base =>
    match h.urls[base.urlPtr]? with
    | none => none
    | some u =>
      let uCopy : URLCell := { u with path := uri }
      let reqCopy : ReqCell :=
        { base with
          method := method
          urlPtr := h.urls.length
          hasBody := if hasIn then true else base.hasBody }
      some ({ urls := h.urls ++ [uCopy],
              reqs := h.reqs ++ [reqCopy],
              headers := h.headers }, h.reqs.length)

/-- Requests logged while processing one package. -/
def procLog (w : World) (p : PkgEntry) : List GoStr :=
  match procPkg w p with
  | .skipped => []
  | .done lg _ => lg
  | .aborted lg _ => lg

/-- The bundle file this package writes, if any. -/
def procOut (w : World) (p : PkgEntry) : Option (GoStr × FileMap) :=
  match procPkg w p with
  | .done _ out => out
  | _ => none

/-- Whether processing this package aborts the run. -/
def procAborts (w : World) (p : PkgEntry) : Bool :=
  match procPkg w p with
  | .aborted _ _ => true
  | _ => false

/-- Whether a logged request path is a stage-listing request. -/
def isStageReq (pth : GoStr) : Bool := stagesBase.isPrefixOf pth

/-- C1 witness input: a world with one package and three listed entries, of
which only `sub/dir/file.conf` (type file, has a separator) qualifies. -/
def pkgA : PkgEntry := ⟨gs "my pkg", gs "stage1"⟩

def entA : FileEntry := ⟨gs "sub/dir/file.conf", gs "file"⟩

def entB : FileEntry := ⟨gs "a", gs "file"⟩

def entC : FileEntry := ⟨gs "dir/b", gs "directory"⟩

def w1 : World where
  resp p :=
    if p = packagesPath then ⟨200, gs "PKGS"⟩
    else if p = stagePath (gs "my pkg") (gs "stage1") then ⟨200, gs "FILES"⟩
    else if p = filePath (gs "my pkg") (gs "stage1") (gs "sub/dir/file.conf") then
      ⟨200, gs "CONTENT"⟩
    else ⟨404, gs "no"⟩
  decodePackages b := if b = gs "PKGS" then some [pkgA] else none
  decodeFiles b := if b = gs "FILES" then some [entA, entB, entC] else none
  caOk := true

/-- C10 witness input: a listing with the qualifying name `d/f` twice. -/
def entD : FileEntry := ⟨gs "d/f", gs "file"⟩

def entE : FileEntry := ⟨gs "x", gs "file"⟩

def w4 : World where
  resp p :=
    if p = filePath (gs "p") (gs "s") (gs "d/f") then ⟨200, gs "CC"⟩
    else ⟨404, gs "no"⟩
  decodePackages _ := none
  decodeFiles _ := none
  caOk := true

/-- C3 witness input: one package whose only file fetch returns HTTP 500. -/
def pkgP1 : PkgEntry := ⟨gs "p1", gs "s1"⟩

def pkgP2 : PkgEntry := ⟨gs "p2", gs "s2"⟩

def w2 : World where
  resp p :=
    if p = packagesPath then ⟨200, gs "PKGS"⟩
    else if p = stagePath (gs "p1") (gs "s1") then ⟨200, gs "FILES"⟩
    else ⟨500, gs "oops"⟩
  decodePackages b := if b = gs "PKGS" then some [pkgP1, pkgP2] else none
  decodeFiles b := if b = gs "FILES" then some [⟨gs "d/x", gs "file"⟩] else none
  caOk := true

/-- C5 witness input: three packages, of which only `a`/`s` has both fields
non-empty; its stage listing is empty. -/
def w3 : World where
  resp p :=
    if p = packagesPath then ⟨200, gs "PKGS"⟩
    else if p = stagePath (gs "a") (gs "s") then ⟨200, gs "F1"⟩
    else ⟨404, gs "no"⟩
  decodePackages b :=
    if b = gs "PKGS" then some [⟨gs "a", gs "s"⟩, ⟨gs "", gs "s"⟩, ⟨gs "b", gs ""⟩]
    else none
  decodeFiles b := if b = gs "F1" then some [] else none
  caOk := true

/-- C9 witness input: a one-request heap standing for the base template. -/
def heap0 : Heap :=
  ⟨[⟨gs "https", gs "h:5665", gs ""⟩], [⟨gs "", 0, 0, false⟩],
    [[(gs "Authorization", gs "Basic x")]]⟩

def heap1 : Heap :=
  ⟨[⟨gs "https", gs "h:5665", gs ""⟩, ⟨gs "https", gs "h:5665", packagesPath⟩],
    [⟨gs "", 0, 0, false⟩, ⟨gs "GET", 1, 0, false⟩],
    [[(gs "Authorization", gs "Basic x")]]⟩

/-!
## Lemmas and claim theorems
-/

theorem mapGet_mapSet (m : FileMap) (k v n : GoStr) :
    mapGet (mapSet m k v) n = if k = n then some v else mapGet m n := by
  induction m with
  | nil => rfl
  | cons kv rest ih =>
    obtain ⟨k', v'⟩ := kv
    by_cases h : k' = k
    · subst h
      simp only [mapSet, if_pos rfl, mapGet]
      by_cases h2 : k' = n <;> simp [h2]
    · simp only [mapSet, if_neg h, mapGet, ih]
      by_cases h2 : k' = n
      · subst h2
        have hk : ¬ k = k' := fun hh => h hh.symm
        simp [hk]
      · simp [h2]

theorem fetchRaw_ok {w : World} {p b : GoStr} (h : fetchRaw w p = .ok b) :
    (w.resp p).status = 200 ∧ b = (w.resp p).body := by
  simp only [fetchRaw] at h
  split at h
  case isTrue ht => exact ⟨ht, by injection h with hh; exact hh.symm⟩
  case isFalse hf => simp at h

theorem fetchRaw_error {w : World} {p : GoStr} {e : StepErr}
    (h : fetchRaw w p = .error e) :
    (w.resp p).status ≠ 200 ∧ e = .badStatus (w.resp p).status (w.resp p).body := by
  simp only [fetchRaw] at h
  split at h
  case isTrue ht => simp at h
  case isFalse hf => exact ⟨hf, by injection h with hh; exact hh.symm⟩

theorem filesLoop_ok_mapGet {w : World} {pkg stage : GoStr} :
    ∀ {entries : List FileEntry} {acc : FileMap} {lg : List GoStr} {m : FileMap},
    filesLoop w pkg stage entries acc = (lg, .ok m) → ∀ n,
    mapGet m n =
      if entries.any (fun e => fileQualifies e && e.name == n)
      then some ((w.resp (filePath pkg stage n)).body)
      else mapGet acc n := by
  intro entries
  induction entries with
  | nil =>
    intro acc lg m h n
    simp only [filesLoop, Prod.mk.injEq, Except.ok.injEq] at h
    simp [← h.2]
  | cons e rest ih =>
    intro acc lg m h n
    by_cases hq : fileQualifies e
    · cases hf : fetchRaw w (filePath pkg stage e.name) with
      | ok body =>
        rcases hrec : filesLoop w pkg stage rest (mapSet acc e.name body) with ⟨lg2, res⟩
        simp only [filesLoop, hq, if_pos, hf, hrec, Prod.mk.injEq] at h
        rw [h.2] at hrec
        have hbody := (fetchRaw_ok hf).2
        rw [ih hrec n, mapGet_mapSet]
        by_cases hrest : rest.any (fun e => fileQualifies e && e.name == n)
        · simp [hrest, hq]
        · by_cases hname : e.name = n
          · subst hname
            simp [hrest, hq, hbody]
          · have hbe : (e.name == n) = false := by simp [hname]
            simp [hrest, hq, hname, hbe]
      | error err =>
        simp only [filesLoop, hq, if_pos, hf] at h
        simp at h
    · simp only [filesLoop, hq] at h
      rw [ih h n]
      simp only [Bool.not_eq_true] at hq
      simp [hq]

theorem filesLoop_ok_log {w : World} {pkg stage : GoStr} :
    ∀ {entries : List FileEntry} {acc : FileMap} {lg : List GoStr} {m : FileMap},
    filesLoop w pkg stage entries acc = (lg, .ok m) →
    lg = (entries.filter fileQualifies).map (fun e => filePath pkg stage e.name) := by
  intro entries
  induction entries with
  | nil =>
    intro acc lg m h
    simp only [filesLoop, Prod.mk.injEq] at h
    simp [← h.1]
  | cons e rest ih =>
    intro acc lg m h
    by_cases hq : fileQualifies e
    · cases hf : fetchRaw w (filePath pkg stage e.name) with
      | ok body =>
        rcases hrec : filesLoop w pkg stage rest (mapSet acc e.name body) with ⟨lg2, res⟩
        simp only [filesLoop, hq, if_pos, hf, hrec, Prod.mk.injEq] at h
        rw [h.2] at hrec
        rw [← h.1, ih hrec]
        simp [List.filter, hq]
      | error err =>
        simp only [filesLoop, hq, if_pos, hf] at h
        simp at h
    · simp only [filesLoop, hq] at h
      rw [ih h]
      simp [List.filter, hq]

theorem filesLoop_log_mem {w : World} {pkg stage : GoStr} :
    ∀ {entries : List FileEntry} {acc : FileMap} {lg : List GoStr}
      {res : Except StepErr FileMap},
    filesLoop w pkg stage entries acc = (lg, res) → ∀ pth ∈ lg,
    ∃ e, e ∈ entries ∧ fileQualifies e = true ∧ pth = filePath pkg stage e.name := by
  intro entries
  induction entries with
  | nil =>
    intro acc lg res h pth hmem
    simp only [filesLoop, Prod.mk.injEq] at h
    rw [← h.1] at hmem
    simp at hmem
  | cons e rest ih =>
    intro acc lg res h pth hmem
    by_cases hq : fileQualifies e
    · cases hf : fetchRaw w (filePath pkg stage e.name) with
      | ok body =>
        rcases hrec : filesLoop w pkg stage rest (mapSet acc e.name body) with ⟨lg2, res2⟩
        simp only [filesLoop, hq, if_pos, hf, hrec, Prod.mk.injEq] at h
        rw [← h.1] at hmem
        rcases List.mem_cons.mp hmem with hpth | hpth
        · exact ⟨e, List.mem_cons_self .., hq, hpth⟩
        · obtain ⟨e2, he2, hq2, hp2⟩ := ih hrec pth hpth
          exact ⟨e2, List.mem_cons_of_mem _ he2, hq2, hp2⟩
      | error err =>
        simp only [filesLoop, hq, if_pos, hf, Prod.mk.injEq] at h
        rw [← h.1] at hmem
        simp only [List.mem_singleton] at hmem
        exact ⟨e, List.mem_cons_self .., hq, hmem⟩
    · simp only [filesLoop, hq] at h
      obtain ⟨e2, he2, hq2, hp2⟩ := ih h pth hmem
      exact ⟨e2, List.mem_cons_of_mem _ he2, hq2, hp2⟩

theorem procPkg_skipped_iff {w : World} {p : PkgEntry} :
    procPkg w p = .skipped ↔ pkgQualifies p = false := by
  constructor
  · intro h
    by_cases hq : pkgQualifies p
    · exfalso
      unfold procPkg at h
      rw [if_pos hq] at h
      cases hf : fetchRaw w (stagePath p.name p.activeStage) with
      | error e => simp only [hf] at h; simp at h
      | ok sbody =>
        cases hd : w.decodeFiles sbody with
        | none => simp only [hf, hd] at h; simp at h
        | some entries =>
          rcases hfl : filesLoop w p.name p.activeStage entries [] with ⟨flg, res⟩
          cases res with
          | error e => simp only [hf, hd, hfl] at h; simp at h
          | ok m => simp only [hf, hd, hfl] at h; simp at h
    · simpa using hq
  · intro h
    unfold procPkg
    rw [if_neg (by simp [h])]

theorem procPkg_done_inv {w : World} {p : PkgEntry} {lg : List GoStr}
    {out : Option (GoStr × FileMap)} (h : procPkg w p = .done lg out) :
    pkgQualifies p = true ∧
    ∃ sbody entries flg m,
      fetchRaw w (stagePath p.name p.activeStage) = .ok sbody ∧
      w.decodeFiles sbody = some entries ∧
      filesLoop w p.name p.activeStage entries [] = (flg, .ok m) ∧
      lg = stagePath p.name p.activeStage :: flg ∧
      out = (if m.length > 0 then some (pathEscape p.name ++ gs ".json", m) else none) := by
  unfold procPkg at h
  by_cases hq : pkgQualifies p
  · rw [if_pos hq] at h
    cases hf : fetchRaw w (stagePath p.name p.activeStage) with
    | error e => simp only [hf] at h; simp at h
    | ok sbody =>
      cases hd : w.decodeFiles sbody with
      | none => simp only [hf, hd] at h; simp at h
      | some entries =>
        rcases hfl : filesLoop w p.name p.activeStage entries [] with ⟨flg, res⟩
        cases res with
        | error e => simp only [hf, hd, hfl] at h; simp at h
        | ok m =>
          simp only [hf, hd, hfl, PkgResult.done.injEq] at h
          exact ⟨hq, sbody, entries, flg, m, rfl, hd, hfl, h.1.symm, h.2.symm⟩
  · rw [if_neg hq] at h
    simp at h

theorem procPkg_aborted_inv {w : World} {p : PkgEntry} {lg : List GoStr}
    {err : StepErr} (h : procPkg w p = .aborted lg err) :
    pkgQualifies p = true ∧
    (lg = [stagePath p.name p.activeStage] ∨
      ∃ sbody entries flg,
        fetchRaw w (stagePath p.name p.activeStage) = .ok sbody ∧
        w.decodeFiles sbody = some entries ∧
        filesLoop w p.name p.activeStage entries [] = (flg, .error err) ∧
        lg = stagePath p.name p.activeStage :: flg) := by
  unfold procPkg at h
  by_cases hq : pkgQualifies p
  · rw [if_pos hq] at h
    cases hf : fetchRaw w (stagePath p.name p.activeStage) with
    | error e =>
      simp only [hf, PkgResult.aborted.injEq] at h
      exact ⟨hq, Or.inl h.1.symm⟩
    | ok sbody =>
      cases hd : w.decodeFiles sbody with
      | none =>
        simp only [hf, hd, PkgResult.aborted.injEq] at h
        exact ⟨hq, Or.inl h.1.symm⟩
      | some entries =>
        rcases hfl : filesLoop w p.name p.activeStage entries [] with ⟨flg, res⟩
        cases res with
        | error e =>
          simp only [hf, hd, hfl, PkgResult.aborted.injEq] at h
          obtain ⟨h1, h2⟩ := h
          subst h2
          exact ⟨hq, Or.inr ⟨sbody, entries, flg, rfl, hd, hfl, h1.symm⟩⟩
        | ok m =>
          simp only [hf, hd, hfl] at h
          simp at h
  · rw [if_neg hq] at h
    simp at h

theorem pkgLoop_no_abort {w : World} :
    ∀ {ps : List PkgEntry}, (∀ q ∈ ps, procAborts w q = false) →
    pkgLoop w ps = ⟨ps.flatMap (procLog w), ps.filterMap (procOut w), none⟩ := by
  intro ps
  induction ps with
  | nil => intro _; rfl
  | cons p rest ih =>
    intro hna
    have hp := hna p (List.mem_cons_self ..)
    have hrest : ∀ q ∈ rest, procAborts w q = false :=
      fun q hq => hna q (List.mem_cons_of_mem _ hq)
    cases hpp : procPkg w p with
    | skipped =>
      simp only [pkgLoop, hpp, ih hrest]
      simp [procLog, procOut, hpp]
    | aborted lg e =>
      exfalso
      unfold procAborts at hp
      rw [hpp] at hp
      simp at hp
    | done lg out =>
      simp only [pkgLoop, hpp, ih hrest]
      cases out <;>
        simp [procLog, procOut, hpp, List.filterMap_cons]

theorem pkgLoop_abort {w : World} {p : PkgEntry} {lg : List GoStr} {err : StepErr} :
    ∀ {pre : List PkgEntry} (post : List PkgEntry),
    (∀ q ∈ pre, procAborts w q = false) →
    procPkg w p = .aborted lg err →
    pkgLoop w (pre ++ p :: post) =
      ⟨pre.flatMap (procLog w) ++ lg, pre.filterMap (procOut w), some err⟩ := by
  intro pre
  induction pre with
  | nil =>
    intro post _ hab
    simp only [List.nil_append, pkgLoop, hab]
    simp
  | cons q pre ih =>
    intro post hna hab
    have hq := hna q (List.mem_cons_self ..)
    have hrest : ∀ r ∈ pre, procAborts w r = false :=
      fun r hr => hna r (List.mem_cons_of_mem _ hr)
    cases hpp : procPkg w q with
    | skipped =>
      simp only [List.cons_append, pkgLoop, hpp]
      simp only [procLog, procOut, hpp, List.flatMap_cons, List.nil_append,
        List.filterMap_cons]
      exact ih post hrest hab
    | aborted lg2 e =>
      exfalso
      unfold procAborts at hq
      rw [hpp] at hq
      simp at hq
    | done lg2 out =>
      simp only [List.cons_append, pkgLoop, hpp]
      cases out <;>
        simp [procLog, procOut, hpp, ih post hrest hab, List.filterMap_cons,
          List.append_assoc]

theorem pkgLoop_err_none {w : World} :
    ∀ {ps : List PkgEntry}, (pkgLoop w ps).err = none →
    ∀ q ∈ ps, procAborts w q = false := by
  intro ps
  induction ps with
  | nil =>
    intro _ q hq
    simp at hq
  | cons p rest ih =>
    intro h q hq
    cases hpp : procPkg w p with
    | skipped =>
      simp only [pkgLoop, hpp] at h
      rcases List.mem_cons.mp hq with rfl | hq2
      · simp [procAborts, hpp]
      · exact ih h q hq2
    | aborted lg e =>
      simp only [pkgLoop, hpp] at h
      simp at h
    | done lg out =>
      simp only [pkgLoop, hpp] at h
      rcases List.mem_cons.mp hq with rfl | hq2
      · simp [procAborts, hpp]
      · exact ih h q hq2

theorem isPrefixOf_append_of_mismatch :
    ∀ (a b x : List Nat), a.isPrefixOf b = false → b.isPrefixOf a = false →
    a.isPrefixOf (b ++ x) = false := by
  intro a
  induction a with
  | nil =>
    intro b x h1 _
    simp [List.isPrefixOf] at h1
  | cons c as ih =>
    intro b x h1 h2
    cases b with
    | nil => simp [List.isPrefixOf] at h2
    | cons d bs =>
      simp only [List.cons_append, List.isPrefixOf] at h1 h2 ⊢
      by_cases hcd : c = d
      · subst hcd
        simp only [beq_self_eq_true, Bool.true_and] at h1 ⊢
        simp only [beq_self_eq_true, Bool.true_and] at h2
        exact ih bs x h1 h2
      · simp [hcd]

theorem isPrefixOf_append_self : ∀ (a t : List Nat), a.isPrefixOf (a ++ t) = true := by
  intro a t
  induction a with
  | nil => simp [List.isPrefixOf]
  | cons c as ih => simp [List.isPrefixOf, ih]

theorem isStageReq_stagePath (a b : GoStr) : isStageReq (stagePath a b) = true := by
  unfold isStageReq stagePath
  rw [List.append_assoc, List.append_assoc]
  exact isPrefixOf_append_self _ _

theorem isStageReq_filePath (a b n : GoStr) : isStageReq (filePath a b n) = false := by
  unfold isStageReq filePath
  have h := isPrefixOf_append_of_mismatch stagesBase filesBase
    (pathEscape a ++ ([47] ++ (pathEscape b ++ ([47] ++ n)))) (by decide) (by decide)
  simpa [List.append_assoc] using h

theorem isStageReq_packagesPath : isStageReq packagesPath = false := by decide

theorem procLog_stage_count {w : World} {p : PkgEntry} (h : procAborts w p = false) :
    ((procLog w p).countP isStageReq) = if pkgQualifies p then 1 else 0 := by
  cases hpp : procPkg w p with
  | skipped =>
    have hq := procPkg_skipped_iff.mp hpp
    simp [procLog, hpp, hq]
  | aborted lg e =>
    exfalso
    unfold procAborts at h
    rw [hpp] at h
    simp at h
  | done lg out =>
    obtain ⟨hq, sbody, entries, flg, m, hf, hd, hfl, hlg, hout⟩ := procPkg_done_inv hpp
    subst hlg
    simp only [procLog, hpp]
    rw [filesLoop_ok_log hfl]
    have hz : (((entries.filter fileQualifies).map
        (fun e => filePath p.name p.activeStage e.name)).countP isStageReq) = 0 := by
      rw [List.countP_eq_zero]
      intro a ha
      obtain ⟨e, _, rfl⟩ := List.mem_map.mp ha
      simp [isStageReq_filePath]
    rw [List.countP_cons, hz]
    simp [hq, isStageReq_stagePath]

theorem flatMap_procLog_stage_count {w : World} :
    ∀ {ps : List PkgEntry}, (∀ q ∈ ps, procAborts w q = false) →
    ((ps.flatMap (procLog w)).countP isStageReq) = ps.countP pkgQualifies := by
  intro ps
  induction ps with
  | nil => intro _; rfl
  | cons p rest ih =>
    intro hna
    rw [List.flatMap_cons, List.countP_append, List.countP_cons,
      procLog_stage_count (hna p (List.mem_cons_self ..)),
      ih (fun q hq => hna q (List.mem_cons_of_mem _ hq))]
    by_cases hq : pkgQualifies p <;> simp [hq, Nat.add_comm]

theorem runExport_ok_inv {w : World} {pkgs : List PkgEntry}
    (hst : (w.resp packagesPath).status = 200)
    (hdec : w.decodePackages ((w.resp packagesPath).body) = some pkgs) :
    runExport w =
      ⟨packagesPath :: (pkgLoop w pkgs).log, (pkgLoop w pkgs).written,
        (pkgLoop w pkgs).err⟩ := by
  unfold runExport
  have hf : fetchRaw w packagesPath = .ok ((w.resp packagesPath).body) := by
    unfold fetchRaw
    rw [if_pos hst]
  simp only [hf, hdec]

theorem any_qualifies_iff (entries : List FileEntry) (n : GoStr) :
    entries.any (fun e => fileQualifies e && e.name == n) = true ↔
      ∃ e, e ∈ entries ∧ e.type = gs "file" ∧ e.name.contains 47 = true ∧ e.name = n := by
  rw [List.any_eq_true]
  constructor
  · rintro ⟨e, he, hp⟩
    rw [Bool.and_eq_true] at hp
    obtain ⟨hq, hn⟩ := hp
    unfold fileQualifies at hq
    rw [Bool.and_eq_true] at hq
    exact ⟨e, he, by simpa using hq.1, hq.2, by simpa using hn⟩
  · rintro ⟨e, he, ht, hc, hn⟩
    refine ⟨e, he, ?_⟩
    rw [Bool.and_eq_true]
    refine ⟨?_, beq_iff_eq.mpr hn⟩
    unfold fileQualifies
    rw [Bool.and_eq_true]
    exact ⟨decide_eq_true ht, hc⟩

theorem filePath_inj (pkg stage : GoStr) {x y : GoStr} :
    filePath pkg stage x = filePath pkg stage y ↔ x = y := by
  constructor
  · intro hh
    exact List.append_cancel_left hh
  · rintro rfl
    rfl

/-- C1: a file entry is included in the bundle mapping iff its type equals
"file" and its name contains the path separator byte 47 = `/`
(main.go:156: `file.Type == "file" && strings.Contains(file.Name, "/")`). -/
theorem c1_bundle_inclusion_iff (w : World) (pkg stage : GoStr)
    (entries : List FileEntry) (lg : List GoStr) (m : FileMap)
    (h : filesLoop w pkg stage entries [] = (lg, .ok m)) (n : GoStr) :
    (mapGet m n).isSome = true ↔
      ∃ e, e ∈ entries ∧ e.type = gs "file" ∧ e.name.contains 47 = true ∧ e.name = n := by
  rw [filesLoop_ok_mapGet h n]
  by_cases hany : entries.any (fun e => fileQualifies e && e.name == n) = true
  · rw [if_pos hany]
    simp only [Option.isSome_some, true_iff]
    exact (any_qualifies_iff entries n).mp hany
  · rw [if_neg hany]
    simp only [mapGet, Option.isSome_none, Bool.false_eq_true, false_iff]
    intro hex
    exact hany ((any_qualifies_iff entries n).mpr hex)

/-- C1 witness: in `w1` the qualifying name is bundled and the entry without
a separator is not. -/
theorem c1_bundle_inclusion_iff_witness :
    (mapGet (filesLoop w1 (gs "my pkg") (gs "stage1") [entA, entB, entC] []).2.toOption.get!
        (gs "sub/dir/file.conf")).isSome = true := by
  have h : filesLoop w1 (gs "my pkg") (gs "stage1") [entA, entB, entC] [] =
      ([filePath (gs "my pkg") (gs "stage1") (gs "sub/dir/file.conf")],
        .ok [(gs "sub/dir/file.conf", gs "CONTENT")]) := by rfl
  rw [h]
  exact (c1_bundle_inclusion_iff w1 (gs "my pkg") (gs "stage1") [entA, entB, entC]
      _ _ h (gs "sub/dir/file.conf")).mpr
    ⟨entA, by decide, by decide, by decide, by decide⟩

/-- C2: a value stored in the bundle mapping is exactly the raw response body
of the fetch for that name — byte for byte, no transcoding
(main.go:179 `uploadFiles[file.Name] = string(content)` together with
main.go:243-250, where a `*[]byte` target receives the body verbatim). -/
theorem c2_content_stored_verbatim (w : World) (pkg stage : GoStr)
    (entries : List FileEntry) (lg : List GoStr) (m : FileMap)
    (h : filesLoop w pkg stage entries [] = (lg, .ok m)) (n v : GoStr)
    (hv : mapGet m n = some v) :
    v = (w.resp (filePath pkg stage n)).body := by
  rw [filesLoop_ok_mapGet h n] at hv
  by_cases hany : entries.any (fun e => fileQualifies e && e.name == n) = true
  · rw [if_pos hany] at hv
    exact (Option.some.inj hv).symm
  · rw [if_neg hany] at hv
    simp [mapGet] at hv

/-- C2 witness: in `w1` the bundled value for `sub/dir/file.conf` is the raw
body served for its fetch path. -/
theorem c2_content_stored_verbatim_witness :
    gs "CONTENT" =
      (w1.resp (filePath (gs "my pkg") (gs "stage1") (gs "sub/dir/file.conf"))).body := by
  have h : filesLoop w1 (gs "my pkg") (gs "stage1") [entA, entB, entC] [] =
      ([filePath (gs "my pkg") (gs "stage1") (gs "sub/dir/file.conf")],
        .ok [(gs "sub/dir/file.conf", gs "CONTENT")]) := by rfl
  exact c2_content_stored_verbatim w1 (gs "my pkg") (gs "stage1") [entA, entB, entC]
    _ _ h (gs "sub/dir/file.conf") (gs "CONTENT") (by rfl)

/-- C10: for duplicate qualifying names, every occurrence is fetched (the
fetch path occurs in the log once per occurrence) and the mapping holds the
content of the last fetch — which, fetches being keyed by the same path, is
the response body for that path (main.go:155-180: the Go map assignment
overwrites earlier bindings). -/
theorem c10_duplicates_last_wins (w : World) (pkg stage : GoStr)
    (entries : List FileEntry) (lg : List GoStr) (m : FileMap) (n : GoStr)
    (h : filesLoop w pkg stage entries [] = (lg, .ok m))
    (hdup : 0 < entries.countP (fun e => fileQualifies e && e.name == n)) :
    lg.count (filePath pkg stage n) =
      entries.countP (fun e => fileQualifies e && e.name == n) ∧
    mapGet m n = some ((w.resp (filePath pkg stage n)).body) := by
  constructor
  · rw [filesLoop_ok_log h, List.count_eq_countP, List.countP_map, List.countP_filter]
    apply List.countP_congr
    intro e _
    simp only [Function.comp]
    constructor
    · intro hb
      rw [Bool.and_eq_true] at hb
      rw [Bool.and_eq_true]
      exact ⟨hb.2, beq_iff_eq.mpr ((filePath_inj pkg stage).mp (beq_iff_eq.mp hb.1))⟩
    · intro hb
      rw [Bool.and_eq_true] at hb
      rw [Bool.and_eq_true]
      exact ⟨beq_iff_eq.mpr ((filePath_inj pkg stage).mpr (beq_iff_eq.mp hb.2)), hb.1⟩
  · rw [filesLoop_ok_mapGet h n]
    have hany : entries.any (fun e => fileQualifies e && e.name == n) = true := by
      rw [List.any_eq_true]
      obtain ⟨e, he, hp⟩ := List.countP_pos_iff.mp hdup
      exact ⟨e, he, hp⟩
    rw [if_pos hany]

/-- C10 witness: with listing `[d/f, x, d/f]` the fetch path for `d/f` is
requested twice and the mapping holds the served content. -/
theorem c10_duplicates_last_wins_witness :
    [filePath (gs "p") (gs "s") (gs "d/f"),
        filePath (gs "p") (gs "s") (gs "d/f")].count
      (filePath (gs "p") (gs "s") (gs "d/f")) = 2 ∧
    mapGet [(gs "d/f", gs "CC")] (gs "d/f") =
      some ((w4.resp (filePath (gs "p") (gs "s") (gs "d/f"))).body) := by
  have h : filesLoop w4 (gs "p") (gs "s") [entD, entE, entD] [] =
      ([filePath (gs "p") (gs "s") (gs "d/f"), filePath (gs "p") (gs "s") (gs "d/f")],
        .ok [(gs "d/f", gs "CC")]) := by rfl
  have hc := c10_duplicates_last_wins w4 (gs "p") (gs "s") [entD, entE, entD]
    _ _ (gs "d/f") h (by decide)
  have h2 : ([entD, entE, entD].countP
      (fun e => fileQualifies e && e.name == gs "d/f")) = 2 := by decide
  rw [h2] at hc
  exact hc

/-- C3: a non-200 response at any fetch step yields a `badHttpStatus` error
carrying the status code, with the body echoed to stderr; the run ends with
exit code 1 and the bundle files written are exactly those of the packages
fully processed before the failing one — none for the in-progress package or
any later one (main.go:238-241 and the fail-fast `os.Exit(1)` calls in
main.go:128-211). -/
theorem c3_non200_aborts (w : World) (pre post : List PkgEntry) (p : PkgEntry)
    (lg : List GoStr) (code : Nat) (echoed : GoStr)
    (hst : (w.resp packagesPath).status = 200)
    (hdec : w.decodePackages ((w.resp packagesPath).body) = some (pre ++ p :: post))
    (hpre : ∀ q ∈ pre, procAborts w q = false)
    (habort : procPkg w p = .aborted lg (.badStatus code echoed)) :
    (runExport w).err = some (.badStatus code echoed) ∧
    (runExport w).exitCode = 1 ∧
    (runExport w).written = pre.filterMap (procOut w) ∧
    (∀ fm ∈ (runExport w).written, ∃ q ∈ pre, procOut w q = some fm) ∧
    (∀ pth, (w.resp pth).status ≠ 200 →
      fetchRaw w pth = .error (.badStatus ((w.resp pth).status) ((w.resp pth).body))) := by
  rw [runExport_ok_inv hst hdec, pkgLoop_abort post hpre habort]
  refine ⟨rfl, rfl, rfl, ?_, ?_⟩
  · intro fm hfm
    obtain ⟨q, hq, hqo⟩ := List.mem_filterMap.mp hfm
    exact ⟨q, hq, hqo⟩
  · intro pth hne
    unfold fetchRaw
    rw [if_neg hne]

/-- C3 witness: in `w2` the file fetch of package `p1` gets HTTP 500, the run
errors out with that status and body, exits 1, and writes nothing — in
particular nothing for `p1` or the later `p2`. -/
theorem c3_non200_aborts_witness :
    (runExport w2).err = some (.badStatus 500 (gs "oops")) ∧
    (runExport w2).exitCode = 1 ∧
    (runExport w2).written = List.filterMap (procOut w2) [] ∧
    (∀ fm ∈ (runExport w2).written, ∃ q ∈ ([] : List PkgEntry), procOut w2 q = some fm) ∧
    (∀ pth, (w2.resp pth).status ≠ 200 →
      fetchRaw w2 pth = .error (.badStatus ((w2.resp pth).status) ((w2.resp pth).body))) := by
  exact c3_non200_aborts w2 [] [pkgP2] pkgP1
    [stagePath (gs "p1") (gs "s1"), filePath (gs "p1") (gs "s1") (gs "d/x")]
    500 (gs "oops") (by rfl) (by rfl) (by intro q hq; simp at hq) (by rfl)

theorem pkgLoop_log_mem {w : World} :
    ∀ {ps : List PkgEntry} {pth : GoStr}, pth ∈ (pkgLoop w ps).log →
    ∃ p, p ∈ ps ∧ pth ∈ procLog w p := by
  intro ps
  induction ps with
  | nil =>
    intro pth h
    simp [pkgLoop] at h
  | cons p rest ih =>
    intro pth h
    cases hpp : procPkg w p with
    | skipped =>
      simp only [pkgLoop, hpp] at h
      obtain ⟨q, hq, hm⟩ := ih h
      exact ⟨q, List.mem_cons_of_mem _ hq, hm⟩
    | aborted lg e =>
      simp only [pkgLoop, hpp] at h
      exact ⟨p, List.mem_cons_self .., by simp [procLog, hpp, h]⟩
    | done lg out =>
      simp only [pkgLoop, hpp] at h
      rcases List.mem_append.mp h with hl | hr
      · exact ⟨p, List.mem_cons_self .., by simp [procLog, hpp, hl]⟩
      · obtain ⟨q, hq, hm⟩ := ih hr
        exact ⟨q, List.mem_cons_of_mem _ hq, hm⟩

theorem procLog_mem {w : World} {p : PkgEntry} (pth : GoStr)
    (hmem : pth ∈ procLog w p) :
    pth = stagePath p.name p.activeStage ∨
      ∃ entries,
        w.decodeFiles ((w.resp (stagePath p.name p.activeStage)).body) = some entries ∧
        ∃ e, e ∈ entries ∧ fileQualifies e = true ∧
          pth = filePath p.name p.activeStage e.name := by
  cases hpp : procPkg w p with
  | skipped =>
    simp only [procLog, hpp] at hmem
    simp at hmem
  | done lg out =>
    simp only [procLog, hpp] at hmem
    obtain ⟨hq, sbody, entries, flg, m, hf, hd, hfl, hlg, hout⟩ := procPkg_done_inv hpp
    subst hlg
    rcases List.mem_cons.mp hmem with rfl | hmem2
    · exact Or.inl rfl
    · have hb := (fetchRaw_ok hf).2
      subst hb
      obtain ⟨e, he, hqe, hpe⟩ := filesLoop_log_mem hfl pth hmem2
      exact Or.inr ⟨entries, hd, e, he, hqe, hpe⟩
  | aborted lg err =>
    simp only [procLog, hpp] at hmem
    obtain ⟨hq, hcase⟩ := procPkg_aborted_inv hpp
    rcases hcase with hlg | ⟨sbody, entries, flg, hf, hd, hfl, hlg⟩
    · subst hlg
      rw [List.mem_singleton] at hmem
      exact Or.inl hmem
    · subst hlg
      rcases List.mem_cons.mp hmem with rfl | hmem2
      · exact Or.inl rfl
      · have hb := (fetchRaw_ok hf).2
        subst hb
        obtain ⟨e, he, hqe, hpe⟩ := filesLoop_log_mem hfl pth hmem2
        exact Or.inr ⟨entries, hd, e, he, hqe, hpe⟩

/-- C4: every request path the program builds is the packages path, a
stage-listing path in which both the package name and the stage name appear
URL-path-escaped, or a files path in which the package and stage names appear
escaped while the listed file name is appended raw, exactly as decoded from
the API response (main.go:144 and main.go:169-170). -/
theorem c4_escaping_asymmetry (w : World) (pkgs : List PkgEntry)
    (hst : (w.resp packagesPath).status = 200)
    (hdec : w.decodePackages ((w.resp packagesPath).body) = some pkgs)
    (pth : GoStr) (hmem : pth ∈ (runExport w).log) :
    pth = packagesPath ∨
    (∃ p, p ∈ pkgs ∧
      pth = stagesBase ++ pathEscape p.name ++ [47] ++ pathEscape p.activeStage) ∨
    (∃ p, p ∈ pkgs ∧ ∃ entries,
      w.decodeFiles ((w.resp (stagePath p.name p.activeStage)).body) = some entries ∧
      ∃ e, e ∈ entries ∧
        pth = filesBase ++ pathEscape p.name ++ [47] ++ pathEscape p.activeStage
          ++ [47] ++ e.name) := by
  rw [runExport_ok_inv hst hdec] at hmem
  rcases List.mem_cons.mp hmem with rfl | hmem2
  · exact Or.inl rfl
  · obtain ⟨p, hp, hm⟩ := pkgLoop_log_mem hmem2
    rcases procLog_mem pth hm with hsp | ⟨entries, hd, e, he, _, hpe⟩
    · exact Or.inr (Or.inl ⟨p, hp, hsp⟩)
    · exact Or.inr (Or.inr ⟨p, hp, entries, hd, e, he, hpe⟩)

/-- C4 witness: in `w1` the logged file-fetch path embeds the escaped package
name `my%20pkg` but the raw file name `sub/dir/file.conf`. -/
theorem c4_escaping_asymmetry_witness :
    filePath (gs "my pkg") (gs "stage1") (gs "sub/dir/file.conf") = packagesPath ∨
    (∃ p, p ∈ [pkgA] ∧
      filePath (gs "my pkg") (gs "stage1") (gs "sub/dir/file.conf") =
        stagesBase ++ pathEscape p.name ++ [47] ++ pathEscape p.activeStage) ∨
    (∃ p, p ∈ [pkgA] ∧ ∃ entries,
      w1.decodeFiles ((w1.resp (stagePath p.name p.activeStage)).body) = some entries ∧
      ∃ e, e ∈ entries ∧
        filePath (gs "my pkg") (gs "stage1") (gs "sub/dir/file.conf") =
          filesBase ++ pathEscape p.name ++ [47] ++ pathEscape p.activeStage
            ++ [47] ++ e.name) := by
  apply c4_escaping_asymmetry w1 [pkgA] (by rfl) (by rfl)
  show _ ∈ (runExport w1).log
  have h : (runExport w1).log =
      [packagesPath, stagePath (gs "my pkg") (gs "stage1"),
        filePath (gs "my pkg") (gs "stage1") (gs "sub/dir/file.conf")] := by rfl
  rw [h]
  simp

/-- C5: when the run does not abort, the number of stage-listing requests in
the log equals the number of decoded packages with both a non-empty name and
a non-empty active-stage; the others trigger none (main.go:134,143-146). -/
theorem c5_stage_request_count (w : World) (pkgs : List PkgEntry)
    (hst : (w.resp packagesPath).status = 200)
    (hdec : w.decodePackages ((w.resp packagesPath).body) = some pkgs)
    (hnoerr : (runExport w).err = none) :
    ((runExport w).log.countP isStageReq) =
      pkgs.countP (fun p => !p.name.isEmpty && !p.activeStage.isEmpty) := by
  rw [runExport_ok_inv hst hdec] at hnoerr ⊢
  dsimp only at hnoerr ⊢
  have hna := pkgLoop_err_none hnoerr
  rw [List.countP_cons, pkgLoop_no_abort hna]
  dsimp only
  rw [flatMap_procLog_stage_count hna]
  simp [isStageReq_packagesPath]
  rfl

/-- C5 witness: in `w3`, one of three packages qualifies and exactly one
stage-listing request is issued. -/
theorem c5_stage_request_count_witness :
    ((runExport w3).log.countP isStageReq) =
      ([⟨gs "a", gs "s"⟩, ⟨gs "", gs "s"⟩, ⟨gs "b", gs ""⟩] : List PkgEntry).countP
        (fun p => !p.name.isEmpty && !p.activeStage.isEmpty) :=
  c5_stage_request_count w3 _ (by rfl) (by rfl) (by rfl)

/-- C6: a written bundle is named by the URL-path-escaped package name plus
`.json`, while every key of its mapping is a file name exactly as decoded
from the stage listing, unescaped (main.go:184 `os.Create(url.PathEscape(
pkg.Name) + ".json")` and main.go:179 `uploadFiles[file.Name] = ...`). -/
theorem c6_output_name_and_keys (w : World) (p : PkgEntry) (lg : List GoStr)
    (fn : GoStr) (m : FileMap) (entries : List FileEntry)
    (hdec : w.decodeFiles ((w.resp (stagePath p.name p.activeStage)).body) = some entries)
    (hdone : procPkg w p = .done lg (some (fn, m))) :
    fn = pathEscape p.name ++ gs ".json" ∧
    ∀ n, (mapGet m n).isSome = true → ∃ e, e ∈ entries ∧ e.name = n := by
  obtain ⟨hq, sbody, entries2, flg, m2, hf, hd, hfl, hlg, hout⟩ := procPkg_done_inv hdone
  have hb := (fetchRaw_ok hf).2
  subst hb
  rw [hdec] at hd
  have he2 : entries2 = entries := Option.some.inj hd.symm
  rw [he2] at hfl
  by_cases hlen : m2.length > 0
  · rw [if_pos hlen] at hout
    have hpair := Option.some.inj hout
    obtain ⟨hfn, hm⟩ := Prod.mk.injEq .. ▸ hpair
    subst hm
    refine ⟨hfn, ?_⟩
    intro n hsome
    rw [filesLoop_ok_mapGet hfl n] at hsome
    by_cases hany : entries.any (fun e => fileQualifies e && e.name == n) = true
    · obtain ⟨e, he, _, _, hn⟩ := (any_qualifies_iff entries n).mp hany
      exact ⟨e, he, hn⟩
    · rw [if_neg hany] at hsome
      simp [mapGet] at hsome
  · rw [if_neg hlen] at hout
    exact absurd hout (by simp)

/-- C6 witness: in `w1` the bundle of package `my pkg` is named
`my%20pkg.json` and its single key is the raw listed name
`sub/dir/file.conf`. -/
theorem c6_output_name_and_keys_witness :
    pathEscape (gs "my pkg") ++ gs ".json" = gs "my%20pkg.json" ∧
    (pathEscape (gs "my pkg") ++ gs ".json" = pathEscape pkgA.name ++ gs ".json" ∧
      ∀ n, (mapGet [(gs "sub/dir/file.conf", gs "CONTENT")] n).isSome = true →
        ∃ e, e ∈ [entA, entB, entC] ∧ e.name = n) := by
  refine ⟨by decide, ?_⟩
  have hdone : procPkg w1 pkgA =
      .done [stagePath (gs "my pkg") (gs "stage1"),
        filePath (gs "my pkg") (gs "stage1") (gs "sub/dir/file.conf")]
        (some (pathEscape (gs "my pkg") ++ gs ".json",
          [(gs "sub/dir/file.conf", gs "CONTENT")])) := by rfl
  exact c6_output_name_and_keys w1 pkgA _ _ _ [entA, entB, entC] (by rfl) hdone

/-- C7: given a successfully processed qualifying package, a bundle file is
written iff the accumulated mapping is non-empty; an empty mapping produces
no output file at all (main.go:183 `if len(uploadFiles) > 0`). -/
theorem c7_empty_mapping_no_file (w : World) (p : PkgEntry)
    (entries : List FileEntry) (sbody : GoStr) (flg : List GoStr) (m : FileMap)
    (hq : pkgQualifies p = true)
    (hf : fetchRaw w (stagePath p.name p.activeStage) = .ok sbody)
    (hdec : w.decodeFiles sbody = some entries)
    (hfl : filesLoop w p.name p.activeStage entries [] = (flg, .ok m)) :
    (procOut w p = none ↔ m = []) ∧
    (m ≠ [] → procOut w p = some (pathEscape p.name ++ gs ".json", m)) := by
  have hpp : procPkg w p = .done (stagePath p.name p.activeStage :: flg)
      (if m.length > 0 then some (pathEscape p.name ++ gs ".json", m) else none) := by
    unfold procPkg
    rw [if_pos hq]
    simp only [hf, hdec, hfl]
  constructor
  · simp only [procOut, hpp]
    by_cases hm : m = []
    · subst hm
      simp
    · have hlen : m.length > 0 := List.length_pos.mpr hm
      simp [hlen, hm]
  · intro hm
    have hlen : m.length > 0 := List.length_pos.mpr hm
    simp [procOut, hpp, hlen]

/-- C7 witness: in `w3` the qualifying package `a` accumulates an empty
mapping and writes no file; in `w1` the package `my pkg` accumulates one
entry and writes its bundle. -/
theorem c7_empty_mapping_no_file_witness :
    (procOut w3 ⟨gs "a", gs "s"⟩ = none ↔ ([] : FileMap) = []) ∧
    (([] : FileMap) ≠ [] →
      procOut w3 ⟨gs "a", gs "s"⟩ =
        some (pathEscape (gs "a") ++ gs ".json", ([] : FileMap))) :=
  c7_empty_mapping_no_file w3 ⟨gs "a", gs "s"⟩ [] (gs "F1") [] []
    (by decide) (by rfl) (by rfl) (by rfl)

/-- C8: if any of the five flags or the `I2_PASS` value is empty, the process
prints a message to stderr and exits with code 2, issuing no request and
writing no file (main.go:63-92). -/
theorem c8_missing_config_exit2 (f : Flags) (pass : GoStr) (w : World)
    (h : f.host = [] ∨ f.port = [] ∨ f.ca = [] ∨ f.cn = [] ∨ f.user = [] ∨ pass = []) :
    (mainModel f pass w).exit = 2 ∧ (mainModel f pass w).msg.isSome = true ∧
    (mainModel f pass w).log = [] ∧ (mainModel f pass w).written = [] := by
  have hm : ∃ msg, mainModel f pass w = ⟨2, some msg, [], []⟩ := by
    unfold mainModel
    repeat' split
    case _ => exact ⟨_, rfl⟩
    case _ => exact ⟨_, rfl⟩
    case _ => exact ⟨_, rfl⟩
    case _ => exact ⟨_, rfl⟩
    case _ => exact ⟨_, rfl⟩
    case _ => exact ⟨_, rfl⟩
    all_goals
      exfalso
      rcases h with h|h|h|h|h|h <;> simp_all
  obtain ⟨msg, hm⟩ := hm
  rw [hm]
  exact ⟨rfl, rfl, rfl, rfl⟩

/-- C8 witness: an empty `-host` with everything else set exits 2 with no
requests and no files. -/
theorem c8_missing_config_exit2_witness :
    (mainModel ⟨[], gs "5665", gs "ca.pem", gs "icinga", gs "root"⟩ (gs "pw") w1).exit = 2 ∧
    (mainModel ⟨[], gs "5665", gs "ca.pem", gs "icinga", gs "root"⟩ (gs "pw") w1).msg.isSome = true ∧
    (mainModel ⟨[], gs "5665", gs "ca.pem", gs "icinga", gs "root"⟩ (gs "pw") w1).log = [] ∧
    (mainModel ⟨[], gs "5665", gs "ca.pem", gs "icinga", gs "root"⟩ (gs "pw") w1).written = [] :=
  c8_missing_config_exit2 ⟨[], gs "5665", gs "ca.pem", gs "icinga", gs "root"⟩
    (gs "pw") w1 (Or.inl rfl)

/-- C9: building the per-call request leaves the base request template
untouched: the base request cell and its URL cell read back unchanged, the
shared header storage is not written, and the method/URL overwrites land on a
freshly allocated request whose URL cell is new (main.go:215-228:
`req := *base`, `url := *req.URL`, `req.Method = method`, `req.URL = &url`,
`url.Path = uri`). -/
theorem c9_base_request_unchanged (h : Heap) (basePtr : Nat) (method uri : GoStr)
    (hasIn : Bool) (h2 : Heap) (rp : Nat) (base : ReqCell)
    (hb : h.reqs[basePtr]? = some base)
    (hbuild : buildReq h basePtr method uri hasIn = some (h2, rp)) :
    h2.reqs[basePtr]? = some base ∧
    h2.urls[base.urlPtr]? = h.urls[base.urlPtr]? ∧
    h2.headers = h.headers ∧
    rp ≠ basePtr ∧
    ∃ c, h2.reqs[rp]? = some c ∧ c.method = method ∧ c.headerPtr = base.headerPtr ∧
      h.urls[c.urlPtr]? = none ∧
      ∃ u u2, h.urls[base.urlPtr]? = some u ∧ h2.urls[c.urlPtr]? = some u2 ∧
        u2.path = uri ∧ u2.scheme = u.scheme ∧ u2.host = u.host := by
  unfold buildReq at hbuild
  rw [hb] at hbuild
  cases hu : h.urls[base.urlPtr]? with
  | none =>
    simp only [hu] at hbuild
    exact Option.noConfusion hbuild
  | some u =>
    simp only [hu, Option.some.injEq, Prod.mk.injEq] at hbuild
    obtain ⟨hh2, hrp⟩ := hbuild
    subst hh2
    subst hrp
    obtain ⟨hblt, -⟩ := List.getElem?_eq_some_iff.mp hb
    obtain ⟨hult, -⟩ := List.getElem?_eq_some_iff.mp hu
    refine ⟨?_, ?_, rfl, Nat.ne_of_gt hblt, ?_⟩
    · rw [List.getElem?_append_left hblt]
      exact hb
    · rw [List.getElem?_append_left hult]
      exact hu
    · refine ⟨_, List.getElem?_concat_length .., rfl, rfl, ?_, u, _, rfl,
        List.getElem?_concat_length .., rfl, rfl, rfl⟩
      exact List.getElem?_eq_none (Nat.le_refl _)

/-- C9 witness: building a GET request for the packages path from `heap0`
leaves the base request and URL cells unchanged. -/
theorem c9_base_request_unchanged_witness :
    heap1.reqs[0]? = some ⟨gs "", 0, 0, false⟩ ∧
    heap1.urls[(0 : Nat)]? = heap0.urls[(0 : Nat)]? ∧
    heap1.headers = heap0.headers ∧
    (1 : Nat) ≠ 0 ∧
    ∃ c, heap1.reqs[1]? = some c ∧ c.method = gs "GET" ∧ c.headerPtr = 0 ∧
      heap0.urls[c.urlPtr]? = none ∧
      ∃ u u2, heap0.urls[(0 : Nat)]? = some u ∧ heap1.urls[c.urlPtr]? = some u2 ∧
        u2.path = packagesPath ∧ u2.scheme = u.scheme ∧ u2.host = u.host := by
  have hw := c9_base_request_unchanged heap0 0 (gs "GET") packagesPath false heap1 1
    ⟨gs "", 0, 0, false⟩ (by rfl) (by rfl)
  exact hw
